import Mathlib

/-!
Verification of the desmoclient typed IR core (`src/compile/ir.rs`):
value types, typed identifiers, the operation set with its type-inference
function, and the ordered instruction sequence builder.

Machine integers are modelled as `Nat` with explicit reduction modulo
`2 ^ 32` at the one place arithmetic is performed on a `u32`
(`IRInstructionSeq.place`'s next-index computation).
-/

namespace Desmoxide

/-- Modelled from the spec: the front-end binary-operator vocabulary
(`crate::ast::BinaryOp`) is outside these sources and is treated as an
opaque enumeration (spec section 6); only its identity matters here. -/
structure BinaryOp where
  tag : Nat
deriving DecidableEq, Repr

/-- Modelled from the spec: the front-end unary-operator vocabulary
(`crate::ast::UnaryOp`), treated as an opaque enumeration. -/
structure UnaryOp where
  tag : Nat
deriving DecidableEq, Repr

/-- Modelled from the spec: the front-end comparator vocabulary
(`crate::ast::Comparison`), treated as an opaque enumeration. -/
structure Comparison where
  tag : Nat
deriving DecidableEq, Repr

/-- Modelled from the spec: the coordinate-axis selector
(`crate::ast::CoordinateAccess`); the x/y/z accessors named in
`ir.rs` (`DotAccessX`, `DotAccessY`, `DotAccessZ`). -/
inductive CoordinateAccess where
  | DotAccessX
  | DotAccessY
  | DotAccessZ
deriving DecidableEq, Repr

/-- An `f64` literal carried opaquely as its 64-bit pattern; no property
here depends on floating-point semantics, the payload is only stored. -/
structure F64 where
  bits : Nat
deriving DecidableEq, Repr

/-- `IRType` from `ir.rs`. -/
inductive IRType where
  | Number
  | Vec2
  | Vec3
  | Never
  | Bool
  | NumberList
  | Vec2List
  | Vec3List
deriving DecidableEq, Repr

/-- `IRType::downcast_list`: `NumberList => Some(Number)`,
`Vec2 => Some(Vec2)`, `Vec3 => Some(Vec3)`, everything else `None`. -/
def IRType.downcast_list : IRType → Option IRType
  | .NumberList => some .Number
  | .Vec2 => some .Vec2
  | .Vec3 => some .Vec3
  | _ => none

/-- The Rust `Debug` rendering of an `IRType` (its variant name), used by
`list_of`'s error message (`bail!("cannot create a list of {:?}", t)`). -/
def IRType.debugStr : IRType → String
  | .Number => "Number"
  | .Vec2 => "Vec2"
  | .Vec3 => "Vec3"
  | .Never => "Never"
  | .Bool => "Bool"
  | .NumberList => "NumberList"
  | .Vec2List => "Vec2List"
  | .Vec3List => "Vec3List"

/-- `Id` from `ir.rs`: a sequence position (`u32`, modelled as `Nat`)
together with a carried `IRType` tag. Structural `DecidableEq` is derived
only so concrete statements can be evaluated; the Rust `PartialEq`/`Ord`
impls are embedded separately as `Id.beq` and `Id.cmp`. -/
structure Id where
  idx : Nat
  t : IRType
deriving DecidableEq, Repr

/-- `Id::new`. -/
def Id.new (idx : Nat) (t : IRType) : Id := ⟨idx, t⟩

/-- `Id::with_idx`: `Self { t: self.t, idx }` — keeps the type tag and
replaces the position. -/
def Id.with_idx (a : Id) (idx : Nat) : Id := ⟨idx, a.t⟩

/-- The Rust `impl PartialEq for Id`: equality over `idx` only. -/
def Id.beq (a b : Id) : Bool := a.idx == b.idx

/-- The Rust `impl Ord for Id`: `self.idx.cmp(&other.idx)`. -/
def Id.cmp (a b : Id) : Ordering := compare a.idx b.idx

/-- `BroadcastArg` from `ir.rs`: a value type and a `u8` slot id
(modelled as `Nat`; it is only stored and compared, never computed on).
Derives structural equality, matching the Rust `derive(PartialEq, Eq)`. -/
structure BroadcastArg where
  t : IRType
  id : Nat
deriving DecidableEq, Repr

/-- The Rust `derive(PartialEq)` on `BroadcastArg`: structural equality
over both fields. -/
def BroadcastArg.beq (a b : BroadcastArg) : Bool :=
  a.t == b.t && a.id == b.id

/-- `ArgId` from `ir.rs`: a newtype over `Id`. -/
structure ArgId where
  id : Id
deriving DecidableEq, Repr

/-- `IROp` from `ir.rs`. -/
inductive IROp where
  | Binary (a b : Id) (op : BinaryOp)
  | Unary (a : Id) (op : UnaryOp)
  | Const (v : F64)
  | IConst (v : Int)
  | LoadArg (a : ArgId)
  | CoordinateOf (a : Id) (ax : CoordinateAccess)
  | Vec2 (a b : Id)
  | Vec3 (a b c : Id)
  | NumberList (len : Id)
  | Vec2List (len : Id)
  | Vec3List (len : Id)
  | ListLength (a : Id)
  | BeginBroadcast (end_index write_to : Id)
  | SetBroadcastArg (a : Id) (slot : BroadcastArg)
  | LoadBroadcastArg (slot : BroadcastArg)
  | EndBroadcast (begin ret : Id)
  | Comparison (lhs : Id) (comp : Comparison) (rhs : Id)
  | BeginPiecewise (comp res : Id)
  | InnerPiecewise (comp res : Id)
  | EndPiecewise (default : Id)
  | Ret (a : Id)
deriving DecidableEq, Repr

/-- `IROp::type_of`, with the source's arms in source order (Rust match
arms apply first-match-wins, so the passthrough arm binds
`BeginBroadcast` before the later `Never` arm, which is unreachable). -/
def IROp.type_of : IROp → IRType
  | .Binary _ _ _ | .Unary _ _ | .Const _ | .IConst _
  | .CoordinateOf _ _ | .ListLength _ => .Number
  | .LoadArg ⟨⟨_, t⟩⟩ => t
  | .LoadBroadcastArg ⟨t, _⟩ => t
  | .BeginPiecewise _ ⟨_, t⟩ => t
  | .BeginBroadcast _ ⟨_, t⟩ => t
  | .Vec2 _ _ => .Vec2
  | .Vec3 _ _ _ => .Vec3
  | .NumberList _ => .NumberList
  | .Vec2List _ => .Vec2List
  | .Vec3List _ => .Vec3List
  | .SetBroadcastArg _ _ => .Never
  | .EndBroadcast _ _ => .Never
  | .Comparison _ _ _ => .Bool
  | .InnerPiecewise _ _ | .EndPiecewise _ => .Never
  | .Ret i => i.t

/-- `IRType::list_of`: `Ok` of the matching list-allocation op for
`Number`/`Vec2`/`Vec3`, `bail!("cannot create a list of {:?}", t)`
otherwise. Pure constructor: it takes no sequence and touches none. -/
def IRType.list_of (t : IRType) (len : Id) : Except String IROp :=
  match t with
  | .Number => .ok (.NumberList len)
  | .Vec2 => .ok (.Vec2List len)
  | .Vec3 => .ok (.Vec3List len)
  | t => .error ("cannot create a list of " ++ t.debugStr)

/-- The Rust `BTreeMap<Id, IROp>` backing store, embedded as an
association list sorted in strictly increasing key order. Keys are
compared with `Id`'s `Ord` instance, which looks only at `idx`
(`Id.cmp`), so a key with a matching `idx` is "the same key". -/
abbrev BTreeMapIdOp := List (Id × IROp)

/-- `BTreeMap::insert` under `Id`'s `idx`-only ordering: inserts at the
sorted position; on a matching key the stored value is replaced while the
previously stored key is kept (Rust `BTreeMap::insert` does not update
the key of an existing entry). -/
def btreeInsert (l : BTreeMapIdOp) (k : Id) (v : IROp) : BTreeMapIdOp :=
  match l with
  | [] => [(k, v)]
  | (k0, v0) :: rest =>
    if k.idx < k0.idx then (k, v) :: (k0, v0) :: rest
    else if k.idx = k0.idx then (k0, v) :: rest
    else (k0, v0) :: btreeInsert rest k v

/-- `BTreeMap::get` under `Id`'s `idx`-only ordering: the stored value at
the entry whose key has the same `idx`, if any. -/
def btreeGet (l : BTreeMapIdOp) (k : Id) : Option IROp :=
  match l with
  | [] => none
  | (k0, v0) :: rest => if k.idx = k0.idx then some v0 else btreeGet rest k

/-- `IRInstructionSeq` from `ir.rs`. -/
structure IRInstructionSeq where
  backing : BTreeMapIdOp

/-- Modelled from the spec: sequences are "created empty per compiled
unit" (spec section 3); the constructor itself is not in the given
sources, and an empty `BTreeMap` is the only empty state. -/
def IRInstructionSeq.empty : IRInstructionSeq := ⟨[]⟩

/-- `IRInstructionSeq::place`. `nid` starts at 0 and becomes
`last_key.idx + 1` (a `u32` addition, hence the reduction mod `2 ^ 32`)
when the map is non-empty; the new id carries `op.type_of()`. Returns
the updated sequence together with the returned `Id`. -/
def IRInstructionSeq.place (s : IRInstructionSeq) (op : IROp) :
    IRInstructionSeq × Id :=
  let nid : Nat :=
    match s.backing.getLast? with
    | some v => (v.1.idx + 1) % 2 ^ 32
    | none => 0
  let id := Id.new nid op.type_of
  (⟨btreeInsert s.backing id op⟩, id)

/-- `IRInstructionSeq::push`: `place` with the returned id discarded. -/
def IRInstructionSeq.push (s : IRInstructionSeq) (op : IROp) :
    IRInstructionSeq :=
  (s.place op).1

/-- Placing a list of operations one by one via `place`, collecting the
returned ids in order. This is the reference driver the claims about
sequential placement quantify over. -/
def IRInstructionSeq.placeList (s : IRInstructionSeq) :
    List IROp → IRInstructionSeq × List Id
  | [] => (s, [])
  | op :: rest =>
    let p := s.place op
    let q := p.1.placeList rest
    (q.1, p.2 :: q.2)

/-- `IRInstructionSeq::coordinates_of2d`: places `CoordinateOf(point, X)`
then `CoordinateOf(point, Y)` and returns their ids in that order. -/
def IRInstructionSeq.coordinates_of2d (s : IRInstructionSeq) (point : Id) :
    IRInstructionSeq × (Id × Id) :=
  let px := s.place (.CoordinateOf point .DotAccessX)
  let py := px.1.place (.CoordinateOf point .DotAccessY)
  (py.1, (px.2, py.2))

/-- `IRInstructionSeq::coordinates_of3d`: places the X, Y, Z
`CoordinateOf` operations in that order and returns their ids. -/
def IRInstructionSeq.coordinates_of3d (s : IRInstructionSeq) (point : Id) :
    IRInstructionSeq × (Id × Id × Id) :=
  let px := s.place (.CoordinateOf point .DotAccessX)
  let py := px.1.place (.CoordinateOf point .DotAccessY)
  let pz := py.1.place (.CoordinateOf point .DotAccessZ)
  (pz.1, (px.2, py.2, pz.2))

/-- `IRInstructionSeq::place_block`: `None` on an empty slice, otherwise
`place` the first op (keeping its id) and `push` the rest in order. -/
def IRInstructionSeq.place_block (s : IRInstructionSeq) (ops : List IROp) :
    IRInstructionSeq × Option Id :=
  match ops with
  | [] => (s, none)
  | op :: rest =>
    let first := s.place op
    (rest.foldl (fun acc i => acc.push i) first.1, some first.2)

/-- `IRInstructionSeq::get`: `backing.get(id)` with
`.context("Could not get IR opcode")` on a miss. -/
def IRInstructionSeq.get (s : IRInstructionSeq) (id : Id) :
    Except String IROp :=
  match btreeGet s.backing id with
  | some op => .ok op
  | none => .error "Could not get IR opcode"

/-- `IRInstructionSeq::latest`: the value of `last_key_value`, with
`.context("called latest on empty InstructionSeq")` when the map is
empty. -/
def IRInstructionSeq.latest (s : IRInstructionSeq) : Except String IROp :=
  match s.backing.getLast? with
  | some v => .ok v.2
  | none => .error "called latest on empty InstructionSeq"

/-- The backing store obtained by placing `ops` one by one into a
sequence whose next free position is `k`: entry `i` is keyed by position
`k + i` with the carried type `type_of` of the stored operation. -/
def canonFrom : Nat → List IROp → BTreeMapIdOp
  | _, [] => []
  | k, op :: rest => (Id.new k op.type_of, op) :: canonFrom (k + 1) rest

/-- The ids returned by placing `ops` one by one starting at position
`k`. -/
def idsFrom : Nat → List IROp → List Id
  | _, [] => []
  | k, op :: rest => Id.new k op.type_of :: idsFrom (k + 1) rest

lemma btreeInsert_append (l : BTreeMapIdOp) (k : Id) (v : IROp)
    (h : ∀ p ∈ l, p.1.idx < k.idx) :
    btreeInsert l k v = l ++ [(k, v)] := by
  induction l with
  | nil => rfl
  | cons p rest ih =>
    obtain ⟨k0, v0⟩ := p
    have hk0 : k0.idx < k.idx := h (k0, v0) (List.mem_cons_self _ _)
    have h1 : ¬ k.idx < k0.idx := by omega
    have h2 : ¬ k.idx = k0.idx := by omega
    simp only [btreeInsert, if_neg h1, if_neg h2, List.cons_append,
      List.cons.injEq, true_and]
    exact ih fun q hq => h q (List.mem_cons_of_mem _ hq)

lemma place_canon (pre : BTreeMapIdOp) (k : Nat) (op : IROp)
    (hmap : pre.map (fun p => p.1.idx) = List.range k)
    (hk : k < 2 ^ 32) :
    (IRInstructionSeq.mk pre).place op
      = (⟨pre ++ [(Id.new k op.type_of, op)]⟩, Id.new k op.type_of) := by
  have hlt : ∀ p ∈ pre, p.1.idx < k := by
    intro p hp
    have hmem : p.1.idx ∈ List.range k := by
      rw [← hmap]
      exact List.mem_map_of_mem _ hp
    exact List.mem_range.mp hmem
  have hins := btreeInsert_append pre (Id.new k op.type_of) op hlt
  cases k with
  | zero =>
    have hnil : pre = [] := List.map_eq_nil_iff.mp (by rw [hmap]; rfl)
    subst hnil
    rfl
  | succ m =>
    have hlast : (pre.map (fun p => p.1.idx)).getLast? = some m := by
      rw [hmap, List.range_succ, List.getLast?_concat]
    rw [List.getLast?_map] at hlast
    cases hpre : pre.getLast? with
    | none => rw [hpre] at hlast; simp at hlast
    | some p =>
      rw [hpre] at hlast
      have hpm : p.1.idx = m := by simpa using hlast
      have hmod : (m + 1) % 2 ^ 32 = m + 1 := Nat.mod_eq_of_lt hk
      simp only [IRInstructionSeq.place, hpre, hpm, hmod]
      rw [hins]

lemma placeList_canon (ops : List IROp) :
    ∀ (pre : BTreeMapIdOp) (k : Nat),
      pre.map (fun p => p.1.idx) = List.range k →
      k + ops.length ≤ 2 ^ 32 →
      (IRInstructionSeq.mk pre).placeList ops
        = (⟨pre ++ canonFrom k ops⟩, idsFrom k ops) := by
  induction ops with
  | nil =>
    intro pre k hmap hle
    simp [IRInstructionSeq.placeList, canonFrom, idsFrom]
  | cons op rest ih =>
    intro pre k hmap hle
    have hk : k < 2 ^ 32 := by
      simp only [List.length_cons] at hle
      omega
    have hmap' : (pre ++ [(Id.new k op.type_of, op)]).map (fun p => p.1.idx)
        = List.range (k + 1) := by
      rw [List.map_append, hmap, List.range_succ]
      rfl
    have hle' : (k + 1) + rest.length ≤ 2 ^ 32 := by
      simp only [List.length_cons] at hle
      omega
    have hrec := ih (pre ++ [(Id.new k op.type_of, op)]) (k + 1) hmap' hle'
    simp only [IRInstructionSeq.placeList, place_canon pre k op hmap hk, hrec,
      canonFrom, idsFrom, List.append_assoc, List.cons_append, List.nil_append]

lemma idsFrom_length (ops : List IROp) : ∀ k, (idsFrom k ops).length = ops.length := by
  induction ops with
  | nil => intro k; rfl
  | cons op rest ih => intro k; simp [idsFrom, ih]

lemma idsFrom_get? (ops : List IROp) :
    ∀ k i, (idsFrom k ops).get? i
      = (ops.get? i).map (fun op => Id.new (k + i) op.type_of) := by
  induction ops with
  | nil => intro k i; simp [idsFrom]
  | cons op rest ih =>
    intro k i
    cases i with
    | zero => simp [idsFrom]
    | succ j =>
      simp only [idsFrom, List.get?_cons_succ, ih (k + 1) j]
      have harith : k + 1 + j = k + (j + 1) := by omega
      rw [harith]

lemma btreeGet_canonFrom (ops : List IROp) :
    ∀ k n t, btreeGet (canonFrom k ops) (Id.new n t)
      = if k ≤ n then ops.get? (n - k) else none := by
  induction ops with
  | nil =>
    intro k n t
    simp only [canonFrom, btreeGet, List.get?]
    split <;> rfl
  | cons op rest ih =>
    intro k n t
    by_cases h : n = k
    · subst h
      simp [canonFrom, btreeGet, Id.new]
    · have hstep : btreeGet (canonFrom k (op :: rest)) (Id.new n t)
          = btreeGet (canonFrom (k + 1) rest) (Id.new n t) := by
        simp [canonFrom, btreeGet, Id.new, h]
      rw [hstep, ih (k + 1) n t]
      by_cases hlt : k + 1 ≤ n
      · have hsub : n - k = (n - (k + 1)) + 1 := by omega
        rw [if_pos hlt, if_pos (by omega), hsub, List.get?_cons_succ]
      · rw [if_neg hlt, if_neg (by omega)]

lemma canonFrom_map_snd (ops : List IROp) :
    ∀ k, (canonFrom k ops).map Prod.snd = ops := by
  induction ops with
  | nil => intro k; rfl
  | cons op rest ih => intro k; simp [canonFrom, ih]

lemma foldl_push_eq_placeList (ops : List IROp) :
    ∀ s : IRInstructionSeq,
      ops.foldl (fun acc i => acc.push i) s = (s.placeList ops).1 := by
  induction ops with
  | nil => intro s; rfl
  | cons op rest ih =>
    intro s
    simp only [List.foldl_cons, IRInstructionSeq.placeList]
    exact ih (s.push op)

/-- C1: `type_of` is total (it is a total Lean function, and the cases
below cover every one of the 21 operation kinds) and returns exactly the
result type of the spec's operation table: Binary, Unary, Const, IConst,
CoordinateOf and ListLength yield Number; Comparison yields Bool; Vec2
yields Vec2, Vec3 yields Vec3; NumberList/Vec2List/Vec3List yield the
corresponding list type; LoadArg yields the argument id's carried type,
LoadBroadcastArg the slot's declared type, BeginPiecewise the type
carried by `res`, BeginBroadcast the type carried by `write_to`;
SetBroadcastArg, EndBroadcast, InnerPiecewise and EndPiecewise yield
Never; Ret yields the referenced id's declared type. -/
theorem type_of_total_table :
    (∀ a b o, (IROp.Binary a b o).type_of = IRType.Number) ∧
    (∀ a o, (IROp.Unary a o).type_of = IRType.Number) ∧
    (∀ v, (IROp.Const v).type_of = IRType.Number) ∧
    (∀ v, (IROp.IConst v).type_of = IRType.Number) ∧
    (∀ a ax, (IROp.CoordinateOf a ax).type_of = IRType.Number) ∧
    (∀ a, (IROp.ListLength a).type_of = IRType.Number) ∧
    (∀ l c r, (IROp.Comparison l c r).type_of = IRType.Bool) ∧
    (∀ a b, (IROp.Vec2 a b).type_of = IRType.Vec2) ∧
    (∀ a b c, (IROp.Vec3 a b c).type_of = IRType.Vec3) ∧
    (∀ l, (IROp.NumberList l).type_of = IRType.NumberList) ∧
    (∀ l, (IROp.Vec2List l).type_of = IRType.Vec2List) ∧
    (∀ l, (IROp.Vec3List l).type_of = IRType.Vec3List) ∧
    (∀ a : ArgId, (IROp.LoadArg a).type_of = a.id.t) ∧
    (∀ s : BroadcastArg, (IROp.LoadBroadcastArg s).type_of = s.t) ∧
    (∀ c r, (IROp.BeginPiecewise c r).type_of = r.t) ∧
    (∀ e w, (IROp.BeginBroadcast e w).type_of = w.t) ∧
    (∀ a s, (IROp.SetBroadcastArg a s).type_of = IRType.Never) ∧
    (∀ b r, (IROp.EndBroadcast b r).type_of = IRType.Never) ∧
    (∀ c r, (IROp.InnerPiecewise c r).type_of = IRType.Never) ∧
    (∀ d, (IROp.EndPiecewise d).type_of = IRType.Never) ∧
    (∀ i, (IROp.Ret i).type_of = i.t) :=
  ⟨fun _ _ _ => rfl, fun _ _ => rfl, fun _ => rfl, fun _ => rfl,
   fun _ _ => rfl, fun _ => rfl, fun _ _ _ => rfl, fun _ _ => rfl,
   fun _ _ _ => rfl, fun _ => rfl, fun _ => rfl, fun _ => rfl,
   fun _ => rfl, fun _ => rfl, fun _ _ => rfl, fun _ _ => rfl,
   fun _ _ => rfl, fun _ _ => rfl, fun _ _ => rfl, fun _ => rfl,
   fun _ => rfl⟩

/-- C3: equality and ordering of general identifiers depend only on the
sequence position, never on the carried type tag: two ids with the same
position but arbitrary types compare equal, comparing any two ids gives
exactly the comparison of their positions, and replacing the type tag on
either side changes neither equality nor ordering. -/
theorem id_identity_position_only :
    (∀ idx t1 t2, Id.beq (Id.new idx t1) (Id.new idx t2) = true) ∧
    (∀ a b : Id, Id.beq a b = true ↔ a.idx = b.idx) ∧
    (∀ a b : Id, Id.cmp a b = compare a.idx b.idx) ∧
    (∀ idx t1 t2 (b : Id),
      Id.beq (Id.new idx t1) b = Id.beq (Id.new idx t2) b ∧
      Id.cmp (Id.new idx t1) b = Id.cmp (Id.new idx t2) b ∧
      Id.beq b (Id.new idx t1) = Id.beq b (Id.new idx t2) ∧
      Id.cmp b (Id.new idx t1) = Id.cmp b (Id.new idx t2)) := by
  refine ⟨fun idx t1 t2 => ?_, fun a b => ?_, fun a b => rfl,
    fun idx t1 t2 b => ⟨rfl, rfl, rfl, rfl⟩⟩
  · simp [Id.beq, Id.new]
  · simp [Id.beq]

/-- C4 counterexample: the claim says `downcast_list` returns some
element type for every list-shaped type, but the code returns `none` on
`Vec2List` and `Vec3List` (spec section 9 itself records the asymmetry:
it is `Vec2`/`Vec3`, not `Vec2List`/`Vec3List`, that map to
themselves). -/
theorem downcast_list_claim_counterexample :
    IRType.Vec2List.downcast_list = none ∧
    IRType.Vec3List.downcast_list = none := by
  exact ⟨rfl, rfl⟩

/-- C4 amended: `downcast_list` returns `some` exactly on `NumberList`
(giving Number), `Vec2` (giving Vec2) and `Vec3` (giving Vec3), and
`none` on `Number`, `Bool`, `Never`, `Vec2List` and `Vec3List`. -/
theorem downcast_list_table :
    IRType.NumberList.downcast_list = some IRType.Number ∧
    IRType.Vec2.downcast_list = some IRType.Vec2 ∧
    IRType.Vec3.downcast_list = some IRType.Vec3 ∧
    IRType.Number.downcast_list = none ∧
    IRType.Bool.downcast_list = none ∧
    IRType.Never.downcast_list = none ∧
    IRType.Vec2List.downcast_list = none ∧
    IRType.Vec3List.downcast_list = none :=
  ⟨rfl, rfl, rfl, rfl, rfl, rfl, rfl, rfl⟩

/-- C5 counterexample: the claim says `with_idx` preserves the sequence
position, reinterprets the type tag, and yields an id equal to the
original; on `Id{idx:0, t:Number}` and new index 1 the code instead
yields `Id{idx:1, t:Number}` — position changed, type kept — which
compares unequal to the original. -/
theorem with_idx_claim_counterexample :
    ((Id.new 0 IRType.Number).with_idx 1).idx = 1 ∧
    ((Id.new 0 IRType.Number).with_idx 1).t = IRType.Number ∧
    Id.beq ((Id.new 0 IRType.Number).with_idx 1) (Id.new 0 IRType.Number)
      = false := by
  exact ⟨rfl, rfl, rfl⟩

/-- C5 amended: `with_idx` produces, from any identifier, a new
identifier carrying the same declared type but the given (possibly
different) sequence position — a type-preserving reposition, not a
position-preserving retag; the result compares equal to the original
exactly when the given position equals the original's position. -/
theorem with_idx_spec (a : Id) (n : Nat) :
    (a.with_idx n).idx = n ∧
    (a.with_idx n).t = a.t ∧
    (Id.beq (a.with_idx n) a = true ↔ n = a.idx) := by
  refine ⟨rfl, rfl, ?_⟩
  simp [Id.beq, Id.with_idx]

/-- C6: `list_of` on Number, Vec2 or Vec3 returns `Ok` of the
corresponding list-allocation operation parameterized by the given
length id, whose `type_of` is the corresponding list type; on every
other type it returns the descriptive cannot-create-a-list error (the
function is a pure constructor over a type and a length id — it takes no
sequence and inserts nothing). -/
theorem list_of_spec (len : Id) :
    IRType.Number.list_of len = .ok (IROp.NumberList len) ∧
    (IROp.NumberList len).type_of = IRType.NumberList ∧
    IRType.Vec2.list_of len = .ok (IROp.Vec2List len) ∧
    (IROp.Vec2List len).type_of = IRType.Vec2List ∧
    IRType.Vec3.list_of len = .ok (IROp.Vec3List len) ∧
    (IROp.Vec3List len).type_of = IRType.Vec3List ∧
    IRType.Bool.list_of len = .error "cannot create a list of Bool" ∧
    IRType.Never.list_of len = .error "cannot create a list of Never" ∧
    IRType.NumberList.list_of len
      = .error "cannot create a list of NumberList" ∧
    IRType.Vec2List.list_of len = .error "cannot create a list of Vec2List" ∧
    IRType.Vec3List.list_of len = .error "cannot create a list of Vec3List" :=
  ⟨rfl, rfl, rfl, rfl, rfl, rfl, rfl, rfl, rfl, rfl, rfl⟩

/-- C10: broadcast-argument identifiers include their declared type in
identity: with the same slot id but distinct types they compare unequal,
and two of them are equal exactly when both the slot and the type
match. -/
theorem broadcast_arg_identity (id : Nat) (t1 t2 : IRType) (h : t1 ≠ t2) :
    BroadcastArg.beq ⟨t1, id⟩ ⟨t2, id⟩ = false ∧
    (∀ a b : BroadcastArg,
      BroadcastArg.beq a b = true ↔ a.t = b.t ∧ a.id = b.id) := by
  constructor
  · simp [BroadcastArg.beq, h]
  · intro a b
    simp [BroadcastArg.beq]

/-- C10 witness: instantiating at slot 0 with Number versus Bool. -/
theorem broadcast_arg_identity_witness :
    (IRType.Number ≠ IRType.Bool) ∧
    (BroadcastArg.beq ⟨IRType.Number, 0⟩ ⟨IRType.Bool, 0⟩ = false ∧
     (∀ a b : BroadcastArg,
       BroadcastArg.beq a b = true ↔ a.t = b.t ∧ a.id = b.id)) :=
  ⟨by decide, broadcast_arg_identity 0 IRType.Number IRType.Bool (by decide)⟩

/-- C2: placing operations in order into a sequence created empty
assigns strictly increasing, contiguous positions starting at 0 — the
i-th returned identifier is exactly position i carrying the placed
operation's inferred type — and `push` places through the same path as
`place`. The index arithmetic is on a `u32`, so the statement assumes at
most `2 ^ 32` placements. -/
theorem place_ids_contiguous_and_typed (ops : List IROp) (i : Nat)
    (h : ops.length ≤ 2 ^ 32) (hi : i < ops.length) :
    (IRInstructionSeq.empty.placeList ops).2.length = ops.length ∧
    (IRInstructionSeq.empty.placeList ops).2.get? i
      = (ops.get? i).map (fun op => Id.new i op.type_of) ∧
    (∀ s op, IRInstructionSeq.push s op = (s.place op).1) := by
  have hcanon := placeList_canon ops [] 0 rfl (by simpa using h)
  rw [show IRInstructionSeq.empty = IRInstructionSeq.mk [] from rfl, hcanon]
  refine ⟨idsFrom_length ops 0, ?_, fun s op => rfl⟩
  simpa using idsFrom_get? ops 0 i

/-- Concrete operation list used to instantiate the sequence-building
claims: a constant followed by a list-length of the constant's id. -/
def opsW : List IROp :=
  [IROp.Const ⟨1⟩, IROp.ListLength (Id.new 0 IRType.Number)]

/-- C2 witness: placing `opsW` (two operations) and reading back the id
returned for the second one. -/
theorem place_ids_contiguous_and_typed_witness :
    (opsW.length ≤ 2 ^ 32 ∧ 1 < opsW.length) ∧
    ((IRInstructionSeq.empty.placeList opsW).2.length = opsW.length ∧
     (IRInstructionSeq.empty.placeList opsW).2.get? 1
       = (opsW.get? 1).map (fun op => Id.new 1 op.type_of) ∧
     (∀ s op, IRInstructionSeq.push s op = (s.place op).1)) :=
  ⟨⟨by decide, by decide⟩,
   place_ids_contiguous_and_typed opsW 1 (by decide) (by decide)⟩

/-- C7: on a sequence created empty, `get` fails for every identifier
value and `latest` fails with the empty-sequence error; after placing
`ops` in order, `get` at any identifier — whatever type tag it carries —
returns the operation placed at that identifier's position when one was
placed and the not-found error otherwise, and `latest` returns the most
recently placed operation. -/
theorem get_latest_contract (ops : List IROp) (n : Nat) (t : IRType)
    (h : ops.length ≤ 2 ^ 32) :
    (∀ id, IRInstructionSeq.empty.get id
      = .error "Could not get IR opcode") ∧
    IRInstructionSeq.empty.latest
      = .error "called latest on empty InstructionSeq" ∧
    ((IRInstructionSeq.empty.placeList ops).1.get (Id.new n t)
      = match ops.get? n with
        | some op => .ok op
        | none => .error "Could not get IR opcode") ∧
    (∀ op, ops.getLast? = some op →
      (IRInstructionSeq.empty.placeList ops).1.latest = .ok op) := by
  have hcanon := placeList_canon ops [] 0 rfl (by simpa using h)
  rw [show IRInstructionSeq.empty = IRInstructionSeq.mk [] from rfl, hcanon]
  refine ⟨fun id => rfl, rfl, ?_, ?_⟩
  · simp only [IRInstructionSeq.get, List.nil_append, btreeGet_canonFrom,
      Nat.zero_le, if_true, Nat.sub_zero]
  · intro op hop
    have h1 : ((canonFrom 0 ops).getLast?).map Prod.snd = some op := by
      rw [← List.getLast?_map, canonFrom_map_snd, hop]
    cases hq : (canonFrom 0 ops).getLast? with
    | none => rw [hq] at h1; simp at h1
    | some q =>
      rw [hq] at h1
      simp only [Option.map_some', Option.some.injEq] at h1
      simp only [IRInstructionSeq.latest, List.nil_append, hq, h1]

/-- C7 witness: the empty-sequence failures, a successful in-range `get`
through an id carrying a deliberately wrong type tag, and `latest` after
placing `opsW`. -/
theorem get_latest_contract_witness :
    (opsW.length ≤ 2 ^ 32) ∧
    ((∀ id, IRInstructionSeq.empty.get id
        = .error "Could not get IR opcode") ∧
     IRInstructionSeq.empty.latest
        = .error "called latest on empty InstructionSeq" ∧
     ((IRInstructionSeq.empty.placeList opsW).1.get (Id.new 1 IRType.Bool)
        = match opsW.get? 1 with
          | some op => .ok op
          | none => .error "Could not get IR opcode") ∧
     (∀ op, opsW.getLast? = some op →
        (IRInstructionSeq.empty.placeList opsW).1.latest = .ok op)) :=
  ⟨by decide, get_latest_contract opsW 1 IRType.Bool (by decide)⟩

/-- C8: `place_block` places every operation of the slice in order —
its final sequence is exactly the sequence obtained by placing them one
by one — and returns the identifier of the first operation placed:
none on an empty slice, the head placement's id otherwise. -/
theorem place_block_spec (s : IRInstructionSeq) (ops : List IROp) :
    s.place_block ops = ((s.placeList ops).1, (s.placeList ops).2.head?) := by
  cases ops with
  | nil => rfl
  | cons op rest =>
    simp only [IRInstructionSeq.place_block, IRInstructionSeq.placeList,
      foldl_push_eq_placeList, List.head?_cons]

/-- C9: `coordinates_of2d` places exactly the two operations
`CoordinateOf(p, X)` then `CoordinateOf(p, Y)` in that order (its final
state is the state of placing exactly that list one by one) and returns
their two identifiers in that order; `coordinates_of3d` likewise places
the X, Y, Z `CoordinateOf` operations and returns their three
identifiers in order; every returned identifier is Number-typed. -/
theorem coordinates_of_spec (s : IRInstructionSeq) (p : Id) :
    (s.coordinates_of2d p).1
      = (s.placeList [IROp.CoordinateOf p CoordinateAccess.DotAccessX,
                      IROp.CoordinateOf p CoordinateAccess.DotAccessY]).1 ∧
    [(s.coordinates_of2d p).2.1, (s.coordinates_of2d p).2.2]
      = (s.placeList [IROp.CoordinateOf p CoordinateAccess.DotAccessX,
                      IROp.CoordinateOf p CoordinateAccess.DotAccessY]).2 ∧
    (s.coordinates_of2d p).2.1.t = IRType.Number ∧
    (s.coordinates_of2d p).2.2.t = IRType.Number ∧
    (s.coordinates_of3d p).1
      = (s.placeList [IROp.CoordinateOf p CoordinateAccess.DotAccessX,
                      IROp.CoordinateOf p CoordinateAccess.DotAccessY,
                      IROp.CoordinateOf p CoordinateAccess.DotAccessZ]).1 ∧
    [(s.coordinates_of3d p).2.1, (s.coordinates_of3d p).2.2.1,
     (s.coordinates_of3d p).2.2.2]
      = (s.placeList [IROp.CoordinateOf p CoordinateAccess.DotAccessX,
                      IROp.CoordinateOf p CoordinateAccess.DotAccessY,
                      IROp.CoordinateOf p CoordinateAccess.DotAccessZ]).2 ∧
    (s.coordinates_of3d p).2.1.t = IRType.Number ∧
    (s.coordinates_of3d p).2.2.1.t = IRType.Number ∧
    (s.coordinates_of3d p).2.2.2.t = IRType.Number :=
  ⟨rfl, rfl, rfl, rfl, rfl, rfl, rfl, rfl, rfl⟩

end Desmoxide
